import Mathlib

/-!
Verification of the task-allocation engine of the Zenith-Agent repository.

The development shallowly embeds the two allocation phases:
* the initial skill/availability matcher (`src/agents/allocator.py`,
  `EmployeeAllocatorAgent`: `_calculate_employee_skill_match`,
  `_calculate_employee_availability`, `_calculate_allocation_score`,
  `allocate_tasks`), and
* the consolidation optimizer (`src/agents/super_agent.py`,
  `OptimizedSuperAgent`: `_calculate_employee_cost_efficiency`,
  `_optimize_task_allocations`).

Python dict records are embedded as structures whose fields carry the values
after the `.get(key, default)` defaults have been applied; numeric values are
embedded as rationals.  Fields that the embedded logic never reads
(timestamps, time zones, hourly rates, reasoning strings) are omitted.
-/

namespace Zenith

/-- Worker record.  Both phases read the same dict, but through different
keys: the matcher reads `availability` / `current_workload`, the optimizer
reads `capacity_hours_per_week` / `current_workload_hours`; the embedding
keeps all four fields. -/
structure Employee where
  id : String
  name : String
  email : String
  role : String
  skills : List String
  seniority_level : String
  availability : ℚ
  current_workload : ℚ
  capacity_hours_per_week : ℚ
  current_workload_hours : ℚ
  preferences : List String
  status : String
  performance_rating : ℚ
deriving Repr, DecidableEq

/-- Task record.  The matcher reads `estimated_hours`, the optimizer reads
`estimated_duration_hours`; both fields are kept. -/
structure Task where
  id : String
  title : String
  description : String
  category : String
  skills_required : List String
  estimated_hours : ℚ
  estimated_duration_hours : ℚ
  priority : String
  complexity : String
deriving Repr, DecidableEq

/-- Python `str.lower()` (ASCII case folding, as in `String.toLower`, written
structurally over the character list so that concrete instances compute). -/
def str_lower (s : String) : String := ⟨s.data.map Char.toLower⟩

/-- `{"Junior": 1, "Mid": 2, "Senior": 3}.get(s, 2)` from
`_calculate_employee_skill_match`. -/
def seniorityOrd (s : String) : ℕ :=
  if s = "Junior" then 1 else if s = "Mid" then 2 else if s = "Senior" then 3 else 2

/-- `{"Low": 1, "Medium": 2, "High": 3}.get(s, 2)` from
`_calculate_employee_skill_match`, and also
`{"High": 3, "Medium": 2, "Low": 1}.get(s, 2)` from the task sort in
`allocate_tasks` (the same function). -/
def hmlOrd (s : String) : ℕ :=
  if s = "Low" then 1 else if s = "Medium" then 2 else if s = "High" then 3 else 2

/-- `EmployeeAllocatorAgent._calculate_employee_skill_match`. -/
def calculate_employee_skill_match (e : Employee) (t : Task) : ℚ :=
  let employee_skills := (e.skills.map str_lower).dedup
  let required_skills := (t.skills_required.map str_lower).dedup
  if required_skills.isEmpty then 1/2
  else
    let matching_skills := required_skills.filter (fun s => s ∈ employee_skills)
    let skill_match_ratio : ℚ := (matching_skills.length : ℚ) / (required_skills.length : ℚ)
    let seniority_bonus : ℚ :=
      if hmlOrd t.complexity ≤ seniorityOrd e.seniority_level then 1/10 else 0
    let preference_bonus : ℚ :=
      if str_lower t.category ∈ e.preferences.map str_lower then 3/20 else 0
    min (skill_match_ratio + seniority_bonus + preference_bonus) 1

/-- `EmployeeAllocatorAgent._calculate_employee_availability`: ratio of the
worker's free hours, computed from the static snapshot fields. -/
def calculate_employee_availability (e : Employee) : ℚ :=
  let total_availability := e.availability
  let available_hours := max 0 (total_availability - e.current_workload)
  if 0 < total_availability then available_hours / total_availability else 0

/-- `EmployeeAllocatorAgent._calculate_allocation_score`. -/
def calculate_allocation_score (e : Employee) (t : Task) : ℚ :=
  calculate_employee_skill_match e t * (1/2)
    + calculate_employee_availability e * (3/10)
    + (e.performance_rating / 5) * (1/5)

/-! ### Stable sorting, as performed by Python `sorted` / `list.sort`

`bef kb ka = true` means that a key-`kb` element already in the list must stay
strictly before a newly inserted key-`ka` element.  With `bef := lt` this is
Python's stable ascending `sort(key=...)`; with `bef kb ka := lt ka kb` it is
the stable descending `sorted(key=..., reverse=True)`. -/

def insertSorted {α β : Type} (bef : β → β → Bool) (key : α → β) (x : α) :
    List α → List α
  | [] => [x]
  | y :: ys =>
    if bef (key y) (key x) then y :: insertSorted bef key x ys else x :: y :: ys

/-- Stable sort: equal-key elements keep their input order. -/
def sortStable {α β : Type} (bef : β → β → Bool) (key : α → β) : List α → List α
  | [] => []
  | x :: xs => insertSorted bef key x (sortStable bef key xs)

/-- Strict lexicographic order on `ℕ × ℕ` sort keys (Python tuple `<`). -/
def pairLtNN (a b : ℕ × ℕ) : Bool :=
  decide (a.1 < b.1) || (decide (a.1 = b.1) && decide (a.2 < b.2))

/-- Strict lexicographic order on `ℕ × ℚ` sort keys (Python tuple `<`). -/
def pairLtNQ (a b : ℕ × ℚ) : Bool :=
  decide (a.1 < b.1) || (decide (a.1 = b.1) && decide (a.2 < b.2))

/-! ### The initial matcher (`EmployeeAllocatorAgent.allocate_tasks`) -/

/-- Sort key of `allocate_tasks`:
`({"High": 3, "Medium": 2, "Low": 1}.get(priority, 2),
  {"High": 3, "Medium": 2, "Low": 1}.get(complexity, 2))`. -/
def taskSortKey (t : Task) : ℕ × ℕ := (hmlOrd t.priority, hmlOrd t.complexity)

/-- `sorted(tasks, key=..., reverse=True)`: stable descending order. -/
def sorted_tasks (tasks : List Task) : List Task :=
  sortStable (fun kb ka => pairLtNN ka kb) taskSortKey tasks

/-- One allocation record produced by `allocate_tasks` (the pure fields of
the allocation dict; the stored task dict is kept as the whole `task`). -/
structure Allocation where
  task_id : String
  task_title : String
  employee_id : String
  employee_name : String
  employee_email : String
  allocation_score : ℚ
  estimated_hours : ℚ
  priority : String
  skills_match : ℚ
  employee_availability : ℚ
  task : Task
deriving Repr, DecidableEq

def mkAllocation (t : Task) (e : Employee) (score : ℚ) : Allocation :=
  { task_id := t.id
    task_title := t.title
    employee_id := e.id
    employee_name := e.name
    employee_email := e.email
    allocation_score := score
    estimated_hours := t.estimated_hours
    priority := t.priority
    skills_match := calculate_employee_skill_match e t
    employee_availability := calculate_employee_availability e
    task := t }

/-- The matcher's run state: produced allocations, unallocated tasks, and the
private per-run capacity ledger `employee_workloads` (a function keyed by
worker id). -/
structure MatcherState where
  allocations : List Allocation
  unallocated : List Task
  workloads : String → ℚ

/-- `employee_workloads = {emp["id"]: emp.get("current_workload", 0) ...}`
(later entries overwrite earlier ones, as in a Python dict comprehension). -/
def initWorkloads (employees : List Employee) : String → ℚ :=
  employees.foldl (fun f e => fun k => if k = e.id then e.current_workload else f k)
    (fun _ => 0)

def initState (employees : List Employee) : MatcherState :=
  { allocations := [], unallocated := [], workloads := initWorkloads employees }

/-- The inner candidate loop of `allocate_tasks`: skip a worker whose free
ledger capacity is below half the task's hours, otherwise keep the strictly
best allocation score seen so far (`best_employee = None`, `best_score = 0`
initially). -/
def findBestStep (workloads : String → ℚ) (t : Task)
    (best : Option Employee × ℚ) (e : Employee) : Option Employee × ℚ :=
  let current_load := workloads e.id
  let available_capacity := e.availability - current_load
  let task_hours := t.estimated_hours
  if available_capacity < task_hours * (1/2) then best
  else
    let score := calculate_allocation_score e t
    if best.2 < score then (some e, score) else best

def findBest (employees : List Employee) (workloads : String → ℚ) (t : Task) :
    Option Employee × ℚ :=
  employees.foldl (findBestStep workloads t) (none, 0)

/-- A worker the matcher's candidate loop does not skip: free ledger capacity
is at least half the task's estimated hours. -/
def matcherEligible (workloads : String → ℚ) (e : Employee) (t : Task) : Prop :=
  ¬(e.availability - workloads e.id < t.estimated_hours * (1/2))

instance (workloads : String → ℚ) (e : Employee) (t : Task) :
    Decidable (matcherEligible workloads e t) := by
  unfold matcherEligible; infer_instance

/-- One iteration of the `for task in sorted_tasks` loop of `allocate_tasks`:
assign when a best employee exists with score above the 0.3 threshold, else
append the task to the unallocated list. -/
def allocStep (employees : List Employee) (st : MatcherState) (t : Task) :
    MatcherState :=
  let best := findBest employees st.workloads t
  match best.1 with
  | some e =>
    if 3/10 < best.2 then
      { allocations := st.allocations ++ [mkAllocation t e best.2]
        unallocated := st.unallocated
        workloads := fun k =>
          if k = e.id then st.workloads k + t.estimated_hours else st.workloads k }
    else
      { st with unallocated := st.unallocated ++ [t] }
  | none => { st with unallocated := st.unallocated ++ [t] }

/-- The allocation loop of `EmployeeAllocatorAgent.allocate_tasks` (the pure
core, after the non-empty roster check). -/
def allocateCore (tasks : List Task) (employees : List Employee) : MatcherState :=
  (sorted_tasks tasks).foldl (allocStep employees) (initState employees)

/-- `EmployeeAllocatorAgent.allocate_tasks` including its
`raise Exception("No employees available for task allocation")` branch for an
empty roster (the surrounding `except` turns the exception into an error
result). -/
def allocate_tasks (tasks : List Task) (employees : List Employee) :
    Except String MatcherState :=
  if employees.isEmpty then .error "No employees available for task allocation"
  else .ok (allocateCore tasks employees)

/-- `employees_involved = len(set(a["employee_id"] for a in allocations))`. -/
def matcherDistinctWorkers (st : MatcherState) : ℕ :=
  ((st.allocations.map Allocation.employee_id).dedup).length

/-! ### Cost efficiency (`OptimizedSuperAgent._calculate_employee_cost_efficiency`) -/

/-- The inline `role_cost_multiplier` lookup table, default 1.0. -/
def role_cost_multiplier (role : String) : ℚ :=
  if role = "developer" then 1
  else if role = "designer" then 6/5
  else if role = "product_manager" then 3/2
  else if role = "architect" then 2
  else if role = "qa_engineer" then 4/5
  else if role = "devops_engineer" then 13/10
  else if role = "data_scientist" then 9/5
  else 1

/-- `workload_pct = current_workload_hours / capacity_hours_per_week * 100`. -/
def workloadPct (e : Employee) : ℚ :=
  (e.current_workload_hours / e.capacity_hours_per_week) * 100

/-- `availability_bonus = max(0, (100 - workload_pct) / 100)`. -/
def availability_bonus (e : Employee) : ℚ := max 0 ((100 - workloadPct e) / 100)

/-- `skills_bonus = min(len(skills) / 10, 0.5)`. -/
def skills_bonus (e : Employee) : ℚ := min ((e.skills.length : ℚ) / 10) (1/2)

/-- The floored difference `max(0.1, multiplier - availability - skills)`,
shared shape of the cost-efficiency score. -/
def cost_efficiency_parts (m a s : ℚ) : ℚ := max (1/10) (m - a - s)

/-- `emp['cost_efficiency_score'] = max(0.1, efficiency_score)` as computed by
`_calculate_employee_cost_efficiency` for one employee. -/
def cost_efficiency_score (e : Employee) : ℚ :=
  cost_efficiency_parts (role_cost_multiplier e.role) (availability_bonus e)
    (skills_bonus e)

/-- `_calculate_employee_cost_efficiency`: annotate (here: recompute on
demand) and return the roster sorted ascending by score (Python stable
sort). -/
def calculate_employee_cost_efficiency (employees : List Employee) : List Employee :=
  sortStable (fun kb ka => decide (kb < ka)) cost_efficiency_score employees

/-! ### The consolidation optimizer (`OptimizedSuperAgent._optimize_task_allocations`) -/

/-- `priority_order = {"critical": 0, "high": 1, "medium": 2, "low": 3}`,
`.get(priority, 2)`. -/
def priority_order (p : String) : ℕ :=
  if p = "critical" then 0
  else if p = "high" then 1
  else if p = "medium" then 2
  else if p = "low" then 3
  else 2

/-- Optimizer sort key `(priority_order.get(priority, 2),
-estimated_duration_hours)`; the list is sorted ascending (no `reverse`). -/
def optSortKey (t : Task) : ℕ × ℚ :=
  (priority_order t.priority, -t.estimated_duration_hours)

/-- `all_tasks.sort(key=...)`: Python's stable ascending in-place sort. -/
def opt_sorted_tasks (tasks : List Task) : List Task :=
  sortStable (fun kb ka => pairLtNQ kb ka) optSortKey tasks

/-- An input allocation group, as produced by the first-phase allocator that
feeds `_optimize_task_allocations` (`employee_id`, `employee_email`,
`employee_name` and a `tasks` list are the fields the optimizer reads). -/
structure GroupedAllocation where
  employee_id : String
  employee_email : String
  employee_name : String
  tasks : List Task
deriving Repr, DecidableEq

/-- One entry of the optimizer's `employee_assignments` dict (the
`allocation_reasoning` string is display-only and omitted). -/
structure OptAssignment where
  employee_id : String
  employee_email : String
  employee_name : String
  tasks : List Task
  total_estimated_hours : ℚ
deriving Repr, DecidableEq

/-- `employee_assignments` is an insertion-ordered Python dict keyed by
employee id; embedded as a list looked up by id. -/
def findAssign (assigns : List OptAssignment) (empId : String) :
    Option OptAssignment :=
  assigns.find? (fun a => a.employee_id = empId)

/-- `current_hours`: the sum of `estimated_duration_hours` over the tasks
already assigned to this employee in this pass (0 when absent). -/
def current_hours_of (assigns : List OptAssignment) (empId : String) : ℚ :=
  match findAssign assigns empId with
  | some a => (a.tasks.map Task.estimated_duration_hours).sum
  | none => 0

/-- Hard capacity eligibility of the optimizer:
`current_hours + task_hours <= capacity_hours_per_week - current_workload_hours`. -/
def optEligible (assigns : List OptAssignment) (e : Employee) (t : Task) : Prop :=
  current_hours_of assigns e.id + t.estimated_duration_hours ≤
    e.capacity_hours_per_week - e.current_workload_hours

instance (assigns : List OptAssignment) (e : Employee) (t : Task) :
    Decidable (optEligible assigns e t) := by
  unfold optEligible; infer_instance

/-- The adjusted cost used to rank an eligible worker: the cost-efficiency
score, times 0.7 when the worker already holds an assignment in this pass. -/
def adjustedCost (assigns : List OptAssignment) (e : Employee) : ℚ :=
  if (findAssign assigns e.id).isSome then cost_efficiency_score e * (7/10)
  else cost_efficiency_score e

/-- One check of the inner `for emp in employees` loop of
`_optimize_task_allocations`: skip a worker that fails the hard capacity
constraint, otherwise keep the strictly smaller adjusted cost
(`min_cost_score = float('inf')` initially, embedded as `none`). -/
def bestOptStep (assigns : List OptAssignment) (t : Task)
    (best : Option (Employee × ℚ)) (e : Employee) : Option (Employee × ℚ) :=
  if optEligible assigns e t then
    let cost := adjustedCost assigns e
    match best with
    | some be => if cost < be.2 then some (e, cost) else some be
    | none => some (e, cost)
  else best

/-- The inner candidate loop of `_optimize_task_allocations`. -/
def bestOptEmployee (employees : List Employee) (assigns : List OptAssignment)
    (t : Task) : Option Employee :=
  (employees.foldl (bestOptStep assigns t) none).map Prod.fst

/-- Record the chosen assignment: create the employee's entry on first use,
then append the task and add its hours. -/
def addTaskToAssign (assigns : List OptAssignment) (e : Employee) (t : Task) :
    List OptAssignment :=
  match findAssign assigns e.id with
  | some _ =>
    assigns.map (fun a =>
      if a.employee_id = e.id then
        { a with
          tasks := a.tasks ++ [t]
          total_estimated_hours := a.total_estimated_hours + t.estimated_duration_hours }
      else a)
  | none =>
    assigns ++ [{ employee_id := e.id
                  employee_email := e.email
                  employee_name := e.name
                  tasks := [t]
                  total_estimated_hours := t.estimated_duration_hours }]

/-- One iteration of the `for task in all_tasks` loop: a task with no
eligible worker is dropped (`if best_employee:` has no else branch). -/
def optStep (employees : List Employee) (assigns : List OptAssignment) (t : Task) :
    List OptAssignment :=
  match bestOptEmployee employees assigns t with
  | some e => addTaskToAssign assigns e t
  | none => assigns

/-- The optimizer pass over an already-flattened task list. -/
def optimizeFlat (all_tasks : List Task) (employees : List Employee) :
    List OptAssignment :=
  (opt_sorted_tasks all_tasks).foldl (optStep employees) []

/-- `OptimizedSuperAgent._optimize_task_allocations`: flatten the incoming
allocation groups into `all_tasks`, sort, and greedily reassign.  (The final
reasoning-annotation loop only attaches strings to each entry of
`employee_assignments` and is omitted; the entries themselves are returned in
dict insertion order.) -/
def optimize_task_allocations (allocations : List GroupedAllocation)
    (employees : List Employee) : List OptAssignment :=
  if allocations.isEmpty then []
  else
    let all_tasks := (allocations.map GroupedAllocation.tasks).flatten
    optimizeFlat all_tasks employees

/-- Distinct workers appearing in the optimizer's output (its entries are
keyed by employee id, one per distinct worker). -/
def optDistinctWorkers (out : List OptAssignment) : ℕ :=
  ((out.map OptAssignment.employee_id).dedup).length

/-! ### Concrete workers and tasks used in counterexamples and witnesses -/

/-- An expensive-by-role but well-matched worker. -/
def empA : Employee :=
  { id := "A", name := "Alice", email := "alice@example.com", role := "architect"
    skills := ["python"], seniority_level := "Mid"
    availability := 40, current_workload := 0
    capacity_hours_per_week := 40, current_workload_hours := 0
    preferences := [], status := "active", performance_rating := 4 }

/-- A cheap-by-role worker with little spare capacity and no matching skills. -/
def empB : Employee :=
  { id := "B", name := "Bob", email := "bob@example.com", role := "developer"
    skills := [], seniority_level := "Mid"
    availability := 30, current_workload := 10
    capacity_hours_per_week := 30, current_workload_hours := 10
    preferences := [], status := "active", performance_rating := 4 }

/-- A worker with no free hours at all. -/
def empFull : Employee :=
  { id := "F", name := "Fred", email := "fred@example.com", role := "developer"
    skills := [], seniority_level := "Mid"
    availability := 40, current_workload := 40
    capacity_hours_per_week := 40, current_workload_hours := 40
    preferences := [], status := "active", performance_rating := 4 }

def taskT1 : Task :=
  { id := "T1", title := "T1", description := "", category := "backend"
    skills_required := ["python"], estimated_hours := 20
    estimated_duration_hours := 20, priority := "High", complexity := "Medium" }

def taskT2 : Task := { taskT1 with id := "T2", title := "T2" }

/-- An 8-hour task that fits nowhere when every worker is full. -/
def taskT8 : Task :=
  { id := "T8", title := "T8", description := "", category := "backend"
    skills_required := [], estimated_hours := 8
    estimated_duration_hours := 8, priority := "high", complexity := "Low" }

def taskCrit : Task :=
  { id := "TC", title := "TC", description := "", category := "backend"
    skills_required := [], estimated_hours := 8
    estimated_duration_hours := 8, priority := "Critical", complexity := "Low" }

def taskHighLow : Task :=
  { id := "TH", title := "TH", description := "", category := "backend"
    skills_required := [], estimated_hours := 8
    estimated_duration_hours := 8, priority := "High", complexity := "Low" }

/-! ### The employee store (`get_available_employees` and the sample rosters) -/

/-- The six-member roster inserted by
`EmployeeAllocatorAgent._create_sample_employees` when the employees
collection is empty (`hourly_rate` and `timezone` are never read by the
allocation logic and are omitted; `capacity_hours_per_week` and
`current_workload_hours` carry their dict-access defaults 40 and 0). -/
def sample_employees : List Employee :=
  [{ id := "emp_001", name := "Alice Johnson", email := "alice.johnson@company.com"
     role := "Senior Full-Stack Developer"
     skills := ["Python", "FastAPI", "React", "TypeScript", "PostgreSQL", "Docker"]
     seniority_level := "Senior", availability := 40, current_workload := 20
     capacity_hours_per_week := 40, current_workload_hours := 0
     preferences := ["Backend", "API Development"], status := "active"
     performance_rating := 24/5 },
   { id := "emp_002", name := "Bob Smith", email := "bob.smith@company.com"
     role := "Frontend Developer"
     skills := ["React", "TypeScript", "CSS", "JavaScript", "UI/UX", "Responsive Design"]
     seniority_level := "Mid", availability := 40, current_workload := 15
     capacity_hours_per_week := 40, current_workload_hours := 0
     preferences := ["Frontend", "UI Development"], status := "active"
     performance_rating := 9/2 },
   { id := "emp_003", name := "Carol Davis", email := "carol.davis@company.com"
     role := "DevOps Engineer"
     skills := ["Docker", "Kubernetes", "CI/CD", "AWS", "Monitoring", "Linux"]
     seniority_level := "Senior", availability := 40, current_workload := 25
     capacity_hours_per_week := 40, current_workload_hours := 0
     preferences := ["Infrastructure", "Deployment"], status := "active"
     performance_rating := 47/10 },
   { id := "emp_004", name := "David Wilson", email := "david.wilson@company.com"
     role := "Backend Developer"
     skills := ["Python", "FastAPI", "PostgreSQL", "SQL", "API Development"]
     seniority_level := "Mid", availability := 40, current_workload := 10
     capacity_hours_per_week := 40, current_workload_hours := 0
     preferences := ["Backend", "Database"], status := "active"
     performance_rating := 43/10 },
   { id := "emp_005", name := "Eva Martinez", email := "eva.martinez@company.com"
     role := "QA Engineer"
     skills := ["Testing", "pytest", "Selenium", "Test Automation", "Quality Assurance"]
     seniority_level := "Mid", availability := 40, current_workload := 12
     capacity_hours_per_week := 40, current_workload_hours := 0
     preferences := ["Testing", "Quality Assurance"], status := "active"
     performance_rating := 22/5 },
   { id := "emp_006", name := "Frank Brown", email := "frank.brown@company.com"
     role := "Junior Developer"
     skills := ["JavaScript", "React", "Python", "Git", "HTML", "CSS"]
     seniority_level := "Junior", availability := 40, current_workload := 8
     capacity_hours_per_week := 40, current_workload_hours := 0
     preferences := ["Learning", "Frontend"], status := "active"
     performance_rating := 4 }]

/-- The two-member fallback list returned by
`EmployeeAllocatorAgent._get_sample_employees` when the database raises. -/
def fallback_sample_employees : List Employee :=
  [{ id := "emp_001", name := "Alice Johnson", email := "alice.johnson@company.com"
     role := "Senior Full-Stack Developer"
     skills := ["Python", "FastAPI", "React", "TypeScript", "PostgreSQL", "Docker"]
     seniority_level := "Senior", availability := 40, current_workload := 20
     capacity_hours_per_week := 40, current_workload_hours := 0
     preferences := ["Backend", "API Development"], status := "active"
     performance_rating := 24/5 },
   { id := "emp_002", name := "Bob Smith", email := "bob.smith@company.com"
     role := "Frontend Developer"
     skills := ["React", "TypeScript", "CSS", "JavaScript", "UI/UX", "Responsive Design"]
     seniority_level := "Mid", availability := 40, current_workload := 15
     capacity_hours_per_week := 40, current_workload_hours := 0
     preferences := ["Frontend", "UI Development"], status := "active"
     performance_rating := 9/2 }]

/-- The employees collection, with each database operation's outcome
modelled separately: `reads_ok` covers `count_documents` and `find`, whose
raise is caught by `get_available_employees`' own handler; `insert_ok`
covers the `insert_many` inside `_create_sample_employees`, whose failure
that helper swallows in its inner `try/except` (it only logs the error). -/
structure DbState where
  store : List Employee
  reads_ok : Bool
  insert_ok : Bool
deriving Repr, DecidableEq

/-- `EmployeeAllocatorAgent.get_available_employees`: count the documents;
on an empty working collection call `_create_sample_employees`, which
inserts the sample roster when `insert_many` succeeds and swallows the
exception when it does not; then return the documents whose `status` is not
`"inactive"`.  When a read raises, the outer handler returns the built-in
two-member sample list.  Returns the employees and the resulting store. -/
def get_available_employees (db : DbState) : List Employee × DbState :=
  if db.reads_ok then
    let store2 :=
      if db.store.length = 0 then
        (if db.insert_ok then db.store ++ sample_employees else db.store)
      else db.store
    (store2.filter (fun e => e.status ≠ "inactive"),
      { db with store := store2 })
  else (fallback_sample_employees, db)

/-! ### Spec-side formulas (for refinement comparisons) -/

/-- Modelled from the spec: `availabilityRatio(worker, ledgerLoad) =
max(0, capacity − ledgerLoad) / capacity; if capacity is 0, return 0`, with
the ledger load as an explicit argument — the code's
`_calculate_employee_availability` has no such argument. -/
def availabilityRatio_spec (e : Employee) (ledgerLoad : ℚ) : ℚ :=
  if e.availability = 0 then 0 else max 0 (e.availability - ledgerLoad) / e.availability

/-- Modelled from the spec: `allocationScore(worker, task, ledgerLoad) =
0.5·skillMatch + 0.3·availabilityRatio + 0.2·(performanceRating/5)`,
with the availability ratio taken against the run's ledger load. -/
def allocationScore_spec (e : Employee) (t : Task) (ledgerLoad : ℚ) : ℚ :=
  (1/2) * calculate_employee_skill_match e t
    + (3/10) * availabilityRatio_spec e ledgerLoad
    + (1/5) * (e.performance_rating / 5)

/-! ### Observations used for the noninterference claim -/

/-- The part of a task the optimizer's control flow may read: its identity,
priority string and estimated duration hours (not its required skills or
category). -/
def taskView (t : Task) : String × String × ℚ :=
  (t.id, t.priority, t.estimated_duration_hours)

/-- Two tasks agreeing on identity, priority and estimated duration hours
(required skills, category and all other fields may differ). -/
def agreesOn (t1 t2 : Task) : Prop := taskView t1 = taskView t2

instance (t1 t2 : Task) : Decidable (agreesOn t1 t2) := by
  unfold agreesOn
  infer_instance

/-- The observable assignment produced by the optimizer: which worker gets
which tasks (by id) for how many hours. -/
def optView (out : List OptAssignment) : List (String × List String × ℚ) :=
  out.map (fun a => (a.employee_id, (a.tasks.map Task.id, a.total_estimated_hours)))

/-- Run-state relation for the noninterference argument: corresponding
assignment entries name the same worker and carry pointwise-agreeing task
lists and equal totals. -/
def assignRel (a1 a2 : OptAssignment) : Prop :=
  a1.employee_id = a2.employee_id ∧ a1.employee_email = a2.employee_email ∧
  a1.employee_name = a2.employee_name ∧
  List.Forall₂ agreesOn a1.tasks a2.tasks ∧
  a1.total_estimated_hours = a2.total_estimated_hours

/-- A task list that differs from `taskT1`/`taskT2` only in required skills
and category (used to witness the noninterference theorem). -/
def taskT1v : Task :=
  { taskT1 with skills_required := ["haskell", "prolog"], category := "research" }

def taskT2v : Task := { taskT2 with skills_required := [], category := "ops" }

/-! ### Generic facts about the embedded stable sort -/

theorem insertSorted_perm {α β : Type} (bef : β → β → Bool) (key : α → β)
    (x : α) (l : List α) : List.Perm (insertSorted bef key x l) (x :: l) := by
  induction l with
  | nil => simp [insertSorted]
  | cons y ys ih =>
    simp only [insertSorted]
    split
    · exact (ih.cons y).trans (List.Perm.swap x y ys)
    · exact List.Perm.refl _

theorem sortStable_perm {α β : Type} (bef : β → β → Bool) (key : α → β)
    (l : List α) : List.Perm (sortStable bef key l) l := by
  induction l with
  | nil => exact List.Perm.refl _
  | cons x xs ih =>
    exact (insertSorted_perm bef key x (sortStable bef key xs)).trans (ih.cons x)

theorem mem_sortStable {α β : Type} {bef : β → β → Bool} {key : α → β}
    {l : List α} {a : α} (h : a ∈ sortStable bef key l) : a ∈ l :=
  (sortStable_perm bef key l).mem_iff.mp h

theorem length_sortStable {α β : Type} (bef : β → β → Bool) (key : α → β)
    (l : List α) : (sortStable bef key l).length = l.length :=
  (sortStable_perm bef key l).length_eq

theorem mem_insertSorted {α β : Type} {bef : β → β → Bool} {key : α → β}
    {x a : α} {l : List α} (h : a ∈ insertSorted bef key x l) :
    a = x ∨ a ∈ l :=
  List.mem_cons.mp ((insertSorted_perm bef key x l).mem_iff.mp h)

theorem pairwise_insertSorted {α β : Type} {bef : β → β → Bool} {key : α → β}
    (hasym : ∀ a b, bef a b = true → bef b a = false)
    (hctrans : ∀ a b c, bef a b = false → bef b c = false → bef a c = false)
    (x : α) {l : List α}
    (hl : l.Pairwise (fun a b => bef (key b) (key a) = false)) :
    (insertSorted bef key x l).Pairwise
      (fun a b => bef (key b) (key a) = false) := by
  induction l with
  | nil => simp [insertSorted]
  | cons y ys ih =>
    rcases List.pairwise_cons.mp hl with ⟨hy, hys⟩
    by_cases hb : bef (key y) (key x) = true
    · rw [insertSorted, if_pos hb]
      refine List.pairwise_cons.mpr ⟨?_, ih hys⟩
      intro z hz
      rcases mem_insertSorted hz with hzx | hzys
      · subst hzx
        exact hasym _ _ hb
      · exact hy z hzys
    · rw [insertSorted, if_neg hb]
      have hb' : bef (key y) (key x) = false := by simpa using hb
      refine List.pairwise_cons.mpr ⟨?_, hl⟩
      intro z hz
      rcases List.mem_cons.mp hz with hzy | hzys
      · subst hzy; exact hb'
      · exact hctrans _ _ _ (hy z hzys) hb'

theorem pairwise_sortStable {α β : Type} {bef : β → β → Bool} {key : α → β}
    (hasym : ∀ a b, bef a b = true → bef b a = false)
    (hctrans : ∀ a b c, bef a b = false → bef b c = false → bef a c = false)
    (l : List α) :
    (sortStable bef key l).Pairwise (fun a b => bef (key b) (key a) = false) := by
  induction l with
  | nil => simp [sortStable]
  | cons x xs ih => exact pairwise_insertSorted hasym hctrans x ih

theorem stable_insertSorted {α β : Type} {bef : β → β → Bool} {key : α → β}
    {f : α → ℕ} (hne : ∀ a b, bef a b = true → a ≠ b)
    {x : α} {l : List α}
    (hl : l.Pairwise (fun p q => key p = key q → f p < f q))
    (hx : ∀ y ∈ l, f x < f y) :
    (insertSorted bef key x l).Pairwise (fun p q => key p = key q → f p < f q) := by
  induction l with
  | nil => simp [insertSorted]
  | cons y ys ih =>
    rcases List.pairwise_cons.mp hl with ⟨hy, hys⟩
    by_cases hb : bef (key y) (key x) = true
    · rw [insertSorted, if_pos hb]
      refine List.pairwise_cons.mpr
        ⟨?_, ih hys (fun z hz => hx z (List.mem_cons_of_mem y hz))⟩
      intro z hz hkey
      rcases mem_insertSorted hz with hzx | hzys
      · subst hzx
        exact absurd hkey (hne _ _ hb)
      · exact hy z hzys hkey
    · rw [insertSorted, if_neg hb]
      refine List.pairwise_cons.mpr ⟨?_, hl⟩
      intro z hz _
      exact hx z hz

theorem stable_sortStable {α β : Type} {bef : β → β → Bool} {key : α → β}
    {f : α → ℕ} (hne : ∀ a b, bef a b = true → a ≠ b)
    {l : List α} (hl : l.Pairwise (fun p q => f p < f q)) :
    (sortStable bef key l).Pairwise (fun p q => key p = key q → f p < f q) := by
  induction l with
  | nil => simp [sortStable]
  | cons x xs ih =>
    rcases List.pairwise_cons.mp hl with ⟨hx, hxs⟩
    exact stable_insertSorted hne (ih hxs)
      (fun y hy => hx y (mem_sortStable hy))

theorem map_insertSorted {α β γ : Type} (bef : β → β → Bool) (key : γ → β)
    (g : α → γ) (x : α) (l : List α) :
    (insertSorted bef (fun a => key (g a)) x l).map g =
      insertSorted bef key (g x) (l.map g) := by
  induction l with
  | nil => simp [insertSorted]
  | cons y ys ih =>
    by_cases hb : bef (key (g y)) (key (g x)) = true
    · rw [insertSorted, if_pos hb, List.map_cons, ih, List.map_cons,
        insertSorted, if_pos hb]
    · rw [insertSorted, if_neg hb, List.map_cons, List.map_cons,
        insertSorted, if_neg hb]

theorem map_sortStable {α β γ : Type} (bef : β → β → Bool) (key : γ → β)
    (g : α → γ) (l : List α) :
    (sortStable bef (fun a => key (g a)) l).map g =
      sortStable bef key (l.map g) := by
  induction l with
  | nil => simp [sortStable]
  | cons x xs ih =>
    simp only [sortStable, List.map_cons]
    rw [map_insertSorted, ih]

/-! ### Characterization of the matcher's candidate loop -/

theorem findBestStep_of_ineligible {w : String → ℚ} {t : Task} {e : Employee}
    (acc : Option Employee × ℚ) (h : ¬matcherEligible w e t) :
    findBestStep w t acc e = acc := by
  unfold findBestStep
  rw [if_pos (not_not.mp h)]

theorem findBestStep_of_eligible {w : String → ℚ} {t : Task} {e : Employee}
    (acc : Option Employee × ℚ) (h : matcherEligible w e t) :
    findBestStep w t acc e =
      (if acc.2 < calculate_allocation_score e t
        then (some e, calculate_allocation_score e t) else acc) := by
  unfold findBestStep
  rw [if_neg h]

theorem findBest_fold_spec (w : String → ℚ) (t : Task) (es : List Employee)
    (acc : Option Employee × ℚ) :
    acc.2 ≤ (es.foldl (findBestStep w t) acc).2 ∧
    (∀ e ∈ es, matcherEligible w e t →
      calculate_allocation_score e t ≤ (es.foldl (findBestStep w t) acc).2) ∧
    (∀ e, (es.foldl (findBestStep w t) acc).1 = some e →
      (acc.1 = some e ∧ (es.foldl (findBestStep w t) acc).2 = acc.2) ∨
      (e ∈ es ∧ matcherEligible w e t ∧
        (es.foldl (findBestStep w t) acc).2 = calculate_allocation_score e t)) ∧
    ((es.foldl (findBestStep w t) acc).1 = none →
      acc.1 = none ∧ (es.foldl (findBestStep w t) acc).2 = acc.2) := by
  induction es generalizing acc with
  | nil =>
    exact ⟨le_refl _, by simp, fun e h => Or.inl ⟨h, rfl⟩, fun h => ⟨h, rfl⟩⟩
  | cons e0 es ih =>
    have hfold : ∀ a : Option Employee × ℚ,
        (e0 :: es).foldl (findBestStep w t) a =
          es.foldl (findBestStep w t) (findBestStep w t a e0) := fun _ => rfl
    rw [hfold]
    by_cases helig : matcherEligible w e0 t
    · by_cases himp : acc.2 < calculate_allocation_score e0 t
      · have hacc : findBestStep w t acc e0 =
            (some e0, calculate_allocation_score e0 t) := by
          rw [findBestStep_of_eligible acc helig, if_pos himp]
        rw [hacc]
        rcases ih (some e0, calculate_allocation_score e0 t) with ⟨iha, ihb, ihc, ihd⟩
        refine ⟨le_trans (le_of_lt himp) iha, ?_, ?_, ?_⟩
        · intro e he helig2
          rcases List.mem_cons.mp he with rfl | hmem
          · exact iha
          · exact ihb e hmem helig2
        · intro e hsome
          rcases ihc e hsome with ⟨h1, h2⟩ | ⟨h1, h2, h3⟩
          · have he0 : e0 = e := Option.some_injective _ h1
            subst he0
            exact Or.inr ⟨List.mem_cons_self _ _, helig, h2⟩
          · exact Or.inr ⟨List.mem_cons_of_mem _ h1, h2, h3⟩
        · intro hnone
          rcases ihd hnone with ⟨h1, _⟩
          exact absurd h1 (by simp)
      · have hacc : findBestStep w t acc e0 = acc := by
          rw [findBestStep_of_eligible acc helig, if_neg himp]
        rw [hacc]
        rcases ih acc with ⟨iha, ihb, ihc, ihd⟩
        refine ⟨iha, ?_, ?_, ihd⟩
        · intro e he helig2
          rcases List.mem_cons.mp he with rfl | hmem
          · exact le_trans (not_lt.mp himp) iha
          · exact ihb e hmem helig2
        · intro e hsome
          rcases ihc e hsome with ⟨h1, h2⟩ | ⟨h1, h2, h3⟩
          · exact Or.inl ⟨h1, h2⟩
          · exact Or.inr ⟨List.mem_cons_of_mem _ h1, h2, h3⟩
    · have hacc : findBestStep w t acc e0 = acc :=
        findBestStep_of_ineligible acc helig
      rw [hacc]
      rcases ih acc with ⟨iha, ihb, ihc, ihd⟩
      refine ⟨iha, ?_, ?_, ihd⟩
      · intro e he helig2
        rcases List.mem_cons.mp he with rfl | hmem
        · exact absurd helig2 helig
        · exact ihb e hmem helig2
      · intro e hsome
        rcases ihc e hsome with ⟨h1, h2⟩ | ⟨h1, h2, h3⟩
        · exact Or.inl ⟨h1, h2⟩
        · exact Or.inr ⟨List.mem_cons_of_mem _ h1, h2, h3⟩

theorem findBest_spec (employees : List Employee) (w : String → ℚ) (t : Task) :
    (∀ e, (findBest employees w t).1 = some e →
      e ∈ employees ∧ matcherEligible w e t ∧
        (findBest employees w t).2 = calculate_allocation_score e t) ∧
    (∀ e ∈ employees, matcherEligible w e t →
      calculate_allocation_score e t ≤ (findBest employees w t).2) ∧
    ((findBest employees w t).1 = none → (findBest employees w t).2 = 0) := by
  rcases findBest_fold_spec w t employees (none, 0) with ⟨_, hb, hc, hd⟩
  refine ⟨?_, hb, fun h => (hd h).2⟩
  intro e hsome
  rcases hc e hsome with ⟨h1, _⟩ | ⟨h1, h2, h3⟩
  · exact absurd h1 (by simp)
  · exact ⟨h1, h2, h3⟩

theorem allocStep_eq_some {employees : List Employee} {st : MatcherState}
    {t : Task} {e : Employee}
    (h : (findBest employees st.workloads t).1 = some e) :
    allocStep employees st t =
      if 3/10 < (findBest employees st.workloads t).2 then
        { allocations := st.allocations ++
            [mkAllocation t e (findBest employees st.workloads t).2]
          unallocated := st.unallocated
          workloads := fun k =>
            if k = e.id then st.workloads k + t.estimated_hours
            else st.workloads k }
      else { st with unallocated := st.unallocated ++ [t] } := by
  simp only [allocStep]
  rw [h]

theorem allocStep_eq_none {employees : List Employee} {st : MatcherState}
    {t : Task} (h : (findBest employees st.workloads t).1 = none) :
    allocStep employees st t = { st with unallocated := st.unallocated ++ [t] } := by
  simp only [allocStep]
  rw [h]

theorem insertSorted_congr {α β : Type} {bef : β → β → Bool} {key : α → β}
    {R : α → α → Prop} (hkey : ∀ a b, R a b → key a = key b)
    {x x' : α} (hx : R x x') {l l' : List α} (hl : List.Forall₂ R l l') :
    List.Forall₂ R (insertSorted bef key x l) (insertSorted bef key x' l') := by
  induction hl with
  | nil =>
    simpa [insertSorted] using List.Forall₂.cons hx List.Forall₂.nil
  | @cons a b l₁ l₂ hy hys ih =>
    rw [insertSorted, insertSorted, ← hkey _ _ hy, ← hkey _ _ hx]
    by_cases hb : bef (key a) (key x) = true
    · rw [if_pos hb, if_pos hb]
      exact List.Forall₂.cons hy ih
    · rw [if_neg hb, if_neg hb]
      exact List.Forall₂.cons hx (List.Forall₂.cons hy hys)

theorem sortStable_congr {α β : Type} {bef : β → β → Bool} {key : α → β}
    {R : α → α → Prop} (hkey : ∀ a b, R a b → key a = key b)
    {l l' : List α} (hl : List.Forall₂ R l l') :
    List.Forall₂ R (sortStable bef key l) (sortStable bef key l') := by
  induction hl with
  | nil => exact List.Forall₂.nil
  | cons hy hys ih => exact insertSorted_congr hkey hy ih

theorem le_fst_of_mem_enumFrom {α : Type} {n : ℕ} {l : List α} {p : ℕ × α}
    (h : p ∈ List.enumFrom n l) : n ≤ p.1 := by
  induction l generalizing n with
  | nil => simp [List.enumFrom] at h
  | cons x xs ih =>
    rcases List.mem_cons.mp h with h1 | h2
    · subst h1; exact Nat.le_refl n
    · exact Nat.le_of_succ_le (ih h2)

theorem pairwise_fst_lt_enumFrom {α : Type} (n : ℕ) (l : List α) :
    (List.enumFrom n l).Pairwise (fun p q => p.1 < q.1) := by
  induction l generalizing n with
  | nil => simp [List.enumFrom]
  | cons x xs ih =>
    refine List.pairwise_cons.mpr ⟨?_, ih (n + 1)⟩
    intro q hq
    exact Nat.lt_of_succ_le (le_fst_of_mem_enumFrom hq)

theorem pairwise_fst_lt_enum {α : Type} (l : List α) :
    l.enum.Pairwise (fun p q => p.1 < q.1) :=
  pairwise_fst_lt_enumFrom 0 l

/-! ### Characterization of the optimizer's candidate loop -/

theorem bestOpt_fold_spec (assigns : List OptAssignment) (t : Task)
    (es : List Employee) (acc : Option (Employee × ℚ)) :
    (∀ p, acc = some p → ∃ q, es.foldl (bestOptStep assigns t) acc = some q ∧
      q.2 ≤ p.2) ∧
    (∀ e ∈ es, optEligible assigns e t →
      ∃ q, es.foldl (bestOptStep assigns t) acc = some q ∧
        q.2 ≤ adjustedCost assigns e) ∧
    (∀ q, es.foldl (bestOptStep assigns t) acc = some q →
      acc = some q ∨
      (q.1 ∈ es ∧ optEligible assigns q.1 t ∧ q.2 = adjustedCost assigns q.1)) ∧
    (es.foldl (bestOptStep assigns t) acc = none →
      acc = none ∧ ∀ e ∈ es, ¬optEligible assigns e t) := by
  induction es generalizing acc with
  | nil =>
    exact ⟨fun p hp => ⟨p, hp, le_refl _⟩, by simp, fun q hq => Or.inl hq,
      fun h => ⟨h, by simp⟩⟩
  | cons e0 es ih =>
    have hfold : ∀ a : Option (Employee × ℚ),
        (e0 :: es).foldl (bestOptStep assigns t) a =
          es.foldl (bestOptStep assigns t) (bestOptStep assigns t a e0) :=
      fun _ => rfl
    rw [hfold]
    by_cases helig : optEligible assigns e0 t
    · rcases acc with _ | p
      · have hacc : bestOptStep assigns t none e0 =
            some (e0, adjustedCost assigns e0) := by
          simp only [bestOptStep, if_pos helig]
        rw [hacc]
        rcases ih (some (e0, adjustedCost assigns e0)) with ⟨iha, ihb, ihc, ihd⟩
        refine ⟨by simp, ?_, ?_, ?_⟩
        · intro e he helig2
          rcases List.mem_cons.mp he with rfl | hmem
          · exact iha _ rfl
          · exact ihb e hmem helig2
        · intro q hq
          rcases ihc q hq with h1 | ⟨h1, h2, h3⟩
          · have hq0 : q = (e0, adjustedCost assigns e0) :=
              (Option.some_injective _ h1).symm
            subst hq0
            exact Or.inr ⟨List.mem_cons_self _ _, helig, rfl⟩
          · exact Or.inr ⟨List.mem_cons_of_mem _ h1, h2, h3⟩
        · intro hnone
          exact absurd (ihd hnone).1 (by simp)
      · by_cases hlt : adjustedCost assigns e0 < p.2
        · have hacc : bestOptStep assigns t (some p) e0 =
              some (e0, adjustedCost assigns e0) := by
            simp only [bestOptStep, if_pos helig]
            rw [if_pos hlt]
          rw [hacc]
          rcases ih (some (e0, adjustedCost assigns e0)) with ⟨iha, ihb, ihc, ihd⟩
          refine ⟨?_, ?_, ?_, ?_⟩
          · intro p2 hp2
            have hpp : p = p2 := Option.some_injective _ hp2
            subst hpp
            rcases iha _ rfl with ⟨q, hq1, hq2⟩
            exact ⟨q, hq1, le_trans hq2 (le_of_lt hlt)⟩
          · intro e he helig2
            rcases List.mem_cons.mp he with rfl | hmem
            · exact iha _ rfl
            · exact ihb e hmem helig2
          · intro q hq
            rcases ihc q hq with h1 | ⟨h1, h2, h3⟩
            · have hq0 : q = (e0, adjustedCost assigns e0) :=
                (Option.some_injective _ h1).symm
              subst hq0
              exact Or.inr ⟨List.mem_cons_self _ _, helig, rfl⟩
            · exact Or.inr ⟨List.mem_cons_of_mem _ h1, h2, h3⟩
          · intro hnone
            exact absurd (ihd hnone).1 (by simp)
        · have hacc : bestOptStep assigns t (some p) e0 = some p := by
            simp only [bestOptStep, if_pos helig]
            rw [if_neg hlt]
          rw [hacc]
          rcases ih (some p) with ⟨iha, ihb, ihc, ihd⟩
          refine ⟨iha, ?_, ?_, ?_⟩
          · intro e he helig2
            rcases List.mem_cons.mp he with rfl | hmem
            · rcases iha p rfl with ⟨q, hq1, hq2⟩
              exact ⟨q, hq1, le_trans hq2 (not_lt.mp hlt)⟩
            · exact ihb e hmem helig2
          · intro q hq
            rcases ihc q hq with h1 | ⟨h1, h2, h3⟩
            · exact Or.inl h1
            · exact Or.inr ⟨List.mem_cons_of_mem _ h1, h2, h3⟩
          · intro hnone
            exact absurd (ihd hnone).1 (by simp)
    · have hacc : bestOptStep assigns t acc e0 = acc := by
        simp only [bestOptStep, if_neg helig]
      rw [hacc]
      rcases ih acc with ⟨iha, ihb, ihc, ihd⟩
      refine ⟨iha, ?_, ?_, ?_⟩
      · intro e he helig2
        rcases List.mem_cons.mp he with rfl | hmem
        · exact absurd helig2 helig
        · exact ihb e hmem helig2
      · intro q hq
        rcases ihc q hq with h1 | ⟨h1, h2, h3⟩
        · exact Or.inl h1
        · exact Or.inr ⟨List.mem_cons_of_mem _ h1, h2, h3⟩
      · intro hnone
        rcases ihd hnone with ⟨h1, h2⟩
        refine ⟨h1, ?_⟩
        intro e he
        rcases List.mem_cons.mp he with rfl | hmem
        · exact helig
        · exact h2 e hmem

theorem bestOptEmployee_spec (employees : List Employee)
    (assigns : List OptAssignment) (t : Task) :
    (∀ e, bestOptEmployee employees assigns t = some e →
      e ∈ employees ∧ optEligible assigns e t ∧
        ∀ e2 ∈ employees, optEligible assigns e2 t →
          adjustedCost assigns e ≤ adjustedCost assigns e2) ∧
    (bestOptEmployee employees assigns t = none →
      ∀ e ∈ employees, ¬optEligible assigns e t) := by
  rcases bestOpt_fold_spec assigns t employees none with ⟨_, hb, hc, hd⟩
  constructor
  · intro e he
    rcases hfold : employees.foldl (bestOptStep assigns t) none with _ | q
    · rw [bestOptEmployee, hfold] at he
      exact absurd he (by simp)
    · rw [bestOptEmployee, hfold] at he
      have heq : q.1 = e := by simpa using he
      rcases hc q hfold with h1 | ⟨h1, h2, h3⟩
      · exact absurd h1.symm (by simp)
      · subst heq
        refine ⟨h1, h2, ?_⟩
        intro e2 he2 helig2
        rcases hb e2 he2 helig2 with ⟨q2, hq2, hle⟩
        rw [hfold] at hq2
        have hqq : q2 = q := Option.some_injective _ hq2.symm
        subst hqq
        rw [← h3]
        exact hle
  · intro hnone
    rcases hfold : employees.foldl (bestOptStep assigns t) none with _ | q
    · intro e he
      exact (hd hfold).2 e he
    · rw [bestOptEmployee, hfold] at hnone
      exact absurd hnone (by simp)

/-! ### Claim theorems

The rational operations of Batteries are marked irreducible, which keeps
`decide` from evaluating concrete allocation runs; they are restored to their
ordinary reducibility for the concrete computations below (the kernel is
unaffected by reducibility attributes). -/

set_option allowUnsafeReducibility true

attribute [local semireducible] Rat.sub Rat.add Rat.mul Rat.inv

/-- **C8**: for every worker, the cost-efficiency score is exactly
`roleMultiplier − availabilityBonus − skillsBonus` floored at 0.1; it is
always at least 0.1, and the floored difference is monotonically
non-increasing as the availability bonus or the skills bonus increases with
everything else held equal. -/
theorem cost_efficiency_floor_and_monotonicity :
    (∀ e : Employee, cost_efficiency_score e =
      cost_efficiency_parts (role_cost_multiplier e.role) (availability_bonus e)
        (skills_bonus e)) ∧
    (∀ e : Employee, 1/10 ≤ cost_efficiency_score e) ∧
    (∀ m a a2 s s2 : ℚ, a ≤ a2 → s ≤ s2 →
      cost_efficiency_parts m a2 s2 ≤ cost_efficiency_parts m a s) := by
  refine ⟨fun e => rfl, fun e => le_max_left _ _, ?_⟩
  intro m a a2 s s2 ha hs
  unfold cost_efficiency_parts
  exact max_le_max (le_refl _) (by linarith)

/-- Witness for `cost_efficiency_floor_and_monotonicity` at concrete
bonuses. -/
theorem cost_efficiency_floor_and_monotonicity_witness :
    cost_efficiency_parts 1 (2/3) (1/2) ≤ cost_efficiency_parts 1 (1/3) 0 ∧
    1/10 ≤ cost_efficiency_score empB :=
  ⟨cost_efficiency_floor_and_monotonicity.2.2 1 (1/3) (2/3) 0 (1/2)
      (by norm_num) (by norm_num),
    cost_efficiency_floor_and_monotonicity.2.1 empB⟩

/-- **C9** counterexample: with an empty collection whose reads succeed but
whose `insert_many` raises — a failure `_create_sample_employees` swallows —
`get_available_employees` returns an empty roster, and `allocate_tasks`
run on it takes the `"No employees available for task allocation"` error
branch: the branch is reachable from an empty store after all. -/
theorem empty_store_failed_insert_reaches_error_branch :
    (get_available_employees ⟨[], true, false⟩).1 = [] ∧
    allocate_tasks [taskT8] (get_available_employees ⟨[], true, false⟩).1 =
      .error "No employees available for task allocation" :=
  ⟨rfl, rfl⟩

/-- **C9** amended: when every involved database operation succeeds, an
empty employee collection is repopulated with the fixed six-member sample
roster, which is then returned; a raising read yields the built-in
two-member sample list; on those two paths `allocate_tasks` sees a
non-empty roster and its `"No employees available"` branch is not taken.
But when the reads succeed and the sample insert fails (that failure is
swallowed inside `_create_sample_employees`), an empty store produces an
empty roster and the error branch is taken. -/
theorem sample_roster_fallbacks_amended :
    get_available_employees ⟨[], true, true⟩ =
      (sample_employees, ⟨sample_employees, true, true⟩) ∧
    sample_employees.length = 6 ∧
    (∀ (s : List Employee) (ins : Bool), get_available_employees ⟨s, false, ins⟩ =
      (fallback_sample_employees, ⟨s, false, ins⟩)) ∧
    fallback_sample_employees.length = 2 ∧
    (∀ tasks, allocate_tasks tasks (get_available_employees ⟨[], true, true⟩).1 =
      .ok (allocateCore tasks sample_employees)) ∧
    (∀ (s : List Employee) (ins : Bool) tasks,
      allocate_tasks tasks (get_available_employees ⟨s, false, ins⟩).1 =
        .ok (allocateCore tasks fallback_sample_employees)) ∧
    (∀ tasks, allocate_tasks tasks (get_available_employees ⟨[], true, false⟩).1 =
      .error "No employees available for task allocation") :=
  ⟨rfl, rfl, fun _ _ => rfl, rfl, fun _ => rfl, fun _ _ _ => rfl, fun _ => rfl⟩

/-- **C2** (code evaluated at the failing input): an 8-hour task handed to
the consolidation optimizer with a roster whose only worker has no free
capacity is dropped: the output contains no allocation and no unallocated
list, so the task disappears from the optimizer's output entirely. -/
theorem optimizer_drops_unplaceable_task :
    optimize_task_allocations
      [{ employee_id := "A", employee_email := "alice@example.com",
         employee_name := "Alice", tasks := [taskT8] }] [empFull] = [] ∧
    taskT8.estimated_duration_hours = 8 ∧
    empFull.capacity_hours_per_week - empFull.current_workload_hours = 0 := by
  refine ⟨by decide, rfl, by decide⟩

/-- The matched-skill count of the code (filter over the deduplicated
lowercased lists) is the cardinality of the set intersection. -/
theorem filter_dedup_length_eq_card_inter (req emp : List String) :
    (req.dedup.filter (fun s => s ∈ emp.dedup)).length =
      (req.toFinset ∩ emp.toFinset).card := by
  have hnd : (req.dedup.filter (fun s => s ∈ emp.dedup)).Nodup :=
    (List.nodup_dedup req).filter _
  rw [← List.toFinset_card_of_nodup hnd]
  congr 1
  ext a
  simp

/-- **C6**: `skillMatch` is 0.5 on an empty required-skill set; otherwise it
is the case-insensitive matched-skill ratio
`|skills ∩ skillsRequired| / |skillsRequired|` plus 0.10 when the worker's
seniority ordinal is at least the task's complexity ordinal, plus 0.15 when
the lowercased category is among the lowercased preferences, clamped at 1.0;
the result always lies in `[0, 1]`. -/
theorem skill_match_formula_and_bounds (e : Employee) (t : Task) :
    (t.skills_required = [] → calculate_employee_skill_match e t = 1/2) ∧
    (t.skills_required ≠ [] →
      calculate_employee_skill_match e t =
        min ((((t.skills_required.map str_lower).toFinset ∩
                (e.skills.map str_lower).toFinset).card : ℚ) /
              (((t.skills_required.map str_lower).toFinset.card : ℚ))
            + (if hmlOrd t.complexity ≤ seniorityOrd e.seniority_level
                then 1/10 else 0)
            + (if str_lower t.category ∈ e.preferences.map str_lower
                then 3/20 else 0)) 1) ∧
    0 ≤ calculate_employee_skill_match e t ∧
    calculate_employee_skill_match e t ≤ 1 := by
  by_cases h : t.skills_required = []
  · have hval : calculate_employee_skill_match e t = 1/2 := by
      simp [calculate_employee_skill_match, h]
    exact ⟨fun _ => hval, fun hc => absurd h hc, by rw [hval]; norm_num,
      by rw [hval]; norm_num⟩
  · have hne : ¬((t.skills_required.map str_lower).dedup.isEmpty = true) := by
      simp only [List.isEmpty_iff, List.dedup_eq_nil, List.map_eq_nil_iff]
      exact h
    have hval : calculate_employee_skill_match e t =
        min ((((t.skills_required.map str_lower).toFinset ∩
                (e.skills.map str_lower).toFinset).card : ℚ) /
              (((t.skills_required.map str_lower).toFinset.card : ℚ))
            + (if hmlOrd t.complexity ≤ seniorityOrd e.seniority_level
                then 1/10 else 0)
            + (if str_lower t.category ∈ e.preferences.map str_lower
                then 3/20 else 0)) 1 := by
      simp only [calculate_employee_skill_match]
      rw [if_neg hne, filter_dedup_length_eq_card_inter, ← List.card_toFinset]
    refine ⟨fun hc => absurd hc h, fun _ => hval, ?_, by rw [hval]; exact min_le_right _ _⟩
    rw [hval]
    refine le_min ?_ (by norm_num)
    have h1 : (0:ℚ) ≤ (((t.skills_required.map str_lower).toFinset ∩
        (e.skills.map str_lower).toFinset).card : ℚ) /
          (((t.skills_required.map str_lower).toFinset.card : ℚ)) :=
      div_nonneg (Nat.cast_nonneg _) (Nat.cast_nonneg _)
    refine add_nonneg (add_nonneg h1 ?_) ?_ <;> split_ifs <;> norm_num

/-- Witness for `skill_match_formula_and_bounds`: `empA` fully matches
`taskT1`. -/
theorem skill_match_formula_and_bounds_witness :
    calculate_employee_skill_match empA taskT1 = 1 ∧
    taskT1.skills_required ≠ [] := by
  have h := (skill_match_formula_and_bounds empA taskT1).2.1 (by decide)
  exact ⟨by rw [h]; decide, by decide⟩

/-- **C5**: one matcher step either assigns the task to a worker that was
capacity-eligible (free ledger capacity at least half the task hours) with
allocation score strictly above 0.3, appending the allocation and adding the
task's hours to that worker's ledger entry, or — exactly when no eligible
worker scores above 0.3 — appends the task to the unallocated list and
leaves allocations and ledger unchanged; no exception is raised either
way. -/
theorem matcher_step_postcondition (employees : List Employee)
    (st : MatcherState) (t : Task) :
    (∃ e, e ∈ employees ∧ matcherEligible st.workloads e t ∧
        3/10 < calculate_allocation_score e t ∧
        (allocStep employees st t).allocations =
          st.allocations ++ [mkAllocation t e (calculate_allocation_score e t)] ∧
        (allocStep employees st t).workloads e.id =
          st.workloads e.id + t.estimated_hours ∧
        (allocStep employees st t).unallocated = st.unallocated) ∨
    ((∀ e ∈ employees, matcherEligible st.workloads e t →
        calculate_allocation_score e t ≤ 3/10) ∧
      (allocStep employees st t).unallocated = st.unallocated ++ [t] ∧
      (allocStep employees st t).allocations = st.allocations ∧
      (allocStep employees st t).workloads = st.workloads) := by
  rcases findBest_spec employees st.workloads t with ⟨hsome, hmax, hnone⟩
  rcases hfb : (findBest employees st.workloads t).1 with _ | e
  · right
    have h0 := hnone hfb
    have hst := allocStep_eq_none hfb
    refine ⟨?_, by rw [hst], by rw [hst], by rw [hst]⟩
    intro e he helig
    calc calculate_allocation_score e t
        ≤ (findBest employees st.workloads t).2 := hmax e he helig
      _ = 0 := h0
      _ ≤ 3/10 := by norm_num
  · rcases hsome e hfb with ⟨hmem, helig, hscore⟩
    by_cases hthr : 3/10 < (findBest employees st.workloads t).2
    · left
      have hst := allocStep_eq_some hfb
      rw [if_pos hthr] at hst
      refine ⟨e, hmem, helig, ?_, ?_, ?_, by rw [hst]⟩
      · rw [← hscore]; exact hthr
      · rw [hst, ← hscore]
      · rw [hst]; simp
    · right
      have hst := allocStep_eq_some hfb
      rw [if_neg hthr] at hst
      refine ⟨?_, by rw [hst], by rw [hst], by rw [hst]⟩
      intro e2 he2 helig2
      exact le_trans (hmax e2 he2 helig2) (not_lt.mp hthr)

/-- Witness for `matcher_step_postcondition`: with roster `[empA]` the first
step on `taskT1` produces exactly one allocation. -/
theorem matcher_step_postcondition_witness :
    (allocStep [empA] (initState [empA]) taskT1).allocations.length = 1 := by
  rcases matcher_step_postcondition [empA] (initState [empA]) taskT1 with
    ⟨e, _, _, _, h1, _, _⟩ | ⟨hall, _, _, _⟩
  · rw [h1]; rfl
  · exact absurd (hall empA (by simp)) (by decide)

/-- **C4**: one optimizer step either assigns the task to a worker that is
eligible under the hard capacity constraint (hours already assigned in this
pass plus the task's hours at most capacity minus original workload) and has
minimal adjusted cost — cost-efficiency score times 0.7 for a worker already
holding an assignment in this pass — among all eligible workers, or, exactly
when no worker is eligible, leaves the assignment map unchanged. -/
theorem optimizer_step_chooses_cheapest_eligible (employees : List Employee)
    (assigns : List OptAssignment) (t : Task) :
    (∃ e, e ∈ employees ∧ optEligible assigns e t ∧
        (∀ e2 ∈ employees, optEligible assigns e2 t →
          adjustedCost assigns e ≤ adjustedCost assigns e2) ∧
        optStep employees assigns t = addTaskToAssign assigns e t) ∨
    ((∀ e ∈ employees, ¬optEligible assigns e t) ∧
      optStep employees assigns t = assigns) := by
  rcases hb : bestOptEmployee employees assigns t with _ | e
  · right
    refine ⟨(bestOptEmployee_spec employees assigns t).2 hb, ?_⟩
    simp only [optStep]
    rw [hb]
  · left
    rcases (bestOptEmployee_spec employees assigns t).1 e hb with ⟨h1, h2, h3⟩
    refine ⟨e, h1, h2, h3, ?_⟩
    simp only [optStep]
    rw [hb]

/-- Witness for `optimizer_step_chooses_cheapest_eligible`: on the fresh
pass, `taskT1` goes to `empB`, the cheaper of the two eligible workers. -/
theorem optimizer_step_chooses_cheapest_eligible_witness :
    optStep [empA, empB] [] taskT1 = addTaskToAssign [] empB taskT1 := by
  rcases optimizer_step_chooses_cheapest_eligible [empA, empB] [] taskT1 with
    ⟨e, hmem, helig, hmin, hstep⟩ | ⟨hnone, _⟩
  · rcases List.mem_cons.mp hmem with rfl | hmem2
    · exact absurd (hmin empB (by simp) (by decide)) (by decide)
    · rcases List.mem_cons.mp hmem2 with rfl | hmem3
      · exact hstep
      · exact absurd hmem3 (List.not_mem_nil _)
  · exact absurd (hnone empB (by simp)) (by decide)

/-- **C3** counterexample: with the single worker `empA` (capacity 40, static
workload 0), both 20-hour tasks are assigned to `empA`; when the second task
is evaluated the private ledger already carries 20 hours, yet the recorded
allocation score of the second task is still 24/25 — the value of the
static-snapshot formula — while the ledger-based spec formula gives 81/100.
The score therefore does not decrease within the run. -/
theorem allocation_score_ignores_ledger :
    (allocateCore [taskT1] [empA]).workloads "A" = 20 ∧
    (allocateCore [taskT1, taskT2] [empA]).allocations.map
      Allocation.allocation_score = [24/25, 24/25] ∧
    allocationScore_spec empA taskT2 20 = 81/100 ∧
    (81/100 : ℚ) ≠ 24/25 :=
  ⟨by decide, by decide, by decide, by decide⟩

/-- **C3** amended: the allocation score is
`0.5·skillMatch + 0.3·availabilityRatio + 0.2·(performanceRating/5)` where
the availability ratio is taken at the worker's static `current_workload`
snapshot (for a non-negative capacity), not at the run's ledger load; the
ledger is consulted only by the capacity-eligibility skip. -/
theorem allocation_score_uses_static_availability (e : Employee) (t : Task)
    (h : 0 ≤ e.availability) :
    calculate_allocation_score e t =
      allocationScore_spec e t e.current_workload := by
  simp only [calculate_allocation_score, allocationScore_spec,
    availabilityRatio_spec, calculate_employee_availability]
  by_cases h0 : e.availability = 0
  · rw [if_neg (by rw [h0]; exact lt_irrefl 0), if_pos h0]
    ring
  · rw [if_pos (lt_of_le_of_ne h (Ne.symm h0)), if_neg h0]
    ring

/-- Witness for `allocation_score_uses_static_availability` at `empA` and
`taskT1`. -/
theorem allocation_score_uses_static_availability_witness :
    calculate_allocation_score empA taskT1 =
      allocationScore_spec empA taskT1 empA.current_workload ∧
    calculate_allocation_score empA taskT1 = 24/25 :=
  ⟨allocation_score_uses_static_availability empA taskT1 (by decide), by decide⟩

/-- **C7** counterexample: the matcher's sort maps use only High/Medium/Low;
a Critical-priority task falls back to the default ordinal 2 and is
processed after a High-priority task, contradicting Critical = 4 ahead of
High = 3. -/
theorem critical_priority_sorts_after_high :
    sorted_tasks [taskCrit, taskHighLow] = [taskHighLow, taskCrit] ∧
    taskSortKey taskCrit = (2, 1) ∧ taskSortKey taskHighLow = (3, 1) :=
  ⟨by decide, by decide, by decide⟩

theorem pairLtNN_asymm (a b : ℕ × ℕ) :
    pairLtNN a b = true → pairLtNN b a = false := by
  simp only [pairLtNN, Bool.or_eq_true, Bool.and_eq_true, decide_eq_true_eq,
    Bool.or_eq_false_iff, Bool.and_eq_false_iff, decide_eq_false_iff_not]
  omega

theorem pairLtNN_false_trans (a b c : ℕ × ℕ) :
    pairLtNN b a = false → pairLtNN c b = false → pairLtNN c a = false := by
  simp only [pairLtNN, Bool.or_eq_false_iff, Bool.and_eq_false_iff,
    decide_eq_false_iff_not, decide_eq_true_eq]
  omega

theorem pairLtNN_ne (a b : ℕ × ℕ) : pairLtNN a b = true → a ≠ b := by
  simp only [pairLtNN, Bool.or_eq_true, Bool.and_eq_true, decide_eq_true_eq]
  rintro h rfl
  omega

/-- **C7** amended: the matcher processes tasks in the stable descending
order of `(priority, complexity)` with ordinals High = 3, Medium = 2,
Low = 1 and every other string — "Critical" included — defaulting to 2:
the output is a permutation of the input, pairwise non-ascending in the
sort key, equal-key tasks keep their input order (stability, stated over
the index-annotated list), and a Critical-priority task carries primary
key 2, i.e. it is ordered as a Medium one, after every High task. -/
theorem matcher_task_order_spec (tasks : List Task) :
    List.Perm (sorted_tasks tasks) tasks ∧
    (sorted_tasks tasks).Pairwise
      (fun a b => pairLtNN (taskSortKey a) (taskSortKey b) = false) ∧
    (sortStable (fun kb ka => pairLtNN ka kb)
        (fun p => taskSortKey p.2) tasks.enum).map Prod.snd = sorted_tasks tasks ∧
    (sortStable (fun kb ka => pairLtNN ka kb)
        (fun p => taskSortKey p.2) tasks.enum).Pairwise
      (fun p q => taskSortKey p.2 = taskSortKey q.2 → p.1 < q.1) ∧
    (∀ t2 : Task, t2.priority = "Critical" → (taskSortKey t2).1 = 2) := by
  have hasym : ∀ a b : ℕ × ℕ, (fun kb ka => pairLtNN ka kb) a b = true →
      (fun kb ka => pairLtNN ka kb) b a = false := fun a b h => pairLtNN_asymm _ _ h
  have hctrans : ∀ a b c : ℕ × ℕ, (fun kb ka => pairLtNN ka kb) a b = false →
      (fun kb ka => pairLtNN ka kb) b c = false →
      (fun kb ka => pairLtNN ka kb) a c = false :=
    fun a b c h1 h2 => pairLtNN_false_trans _ _ _ h1 h2
  refine ⟨sortStable_perm _ _ tasks, pairwise_sortStable hasym hctrans tasks,
    ?_, ?_, ?_⟩
  · rw [map_sortStable (fun kb ka => pairLtNN ka kb) taskSortKey Prod.snd
      tasks.enum, List.enum_map_snd]
    rfl
  · exact stable_sortStable (fun a b h => (pairLtNN_ne _ _ h).symm)
      (pairwise_fst_lt_enum tasks)
  · intro t2 h
    show hmlOrd t2.priority = 2
    rw [h]
    decide

/-- Witness for `matcher_task_order_spec` on a concrete two-task list. -/
theorem matcher_task_order_spec_witness :
    List.Perm (sorted_tasks [taskCrit, taskHighLow]) [taskCrit, taskHighLow] ∧
    (taskSortKey taskCrit).1 = 2 :=
  ⟨(matcher_task_order_spec [taskCrit, taskHighLow]).1,
    (matcher_task_order_spec [taskCrit, taskHighLow]).2.2.2.2 taskCrit rfl⟩

/-- **C1** counterexample: on the task set `[taskT1, taskT2]` and roster
`[empA, empB]`, the matcher assigns both tasks to `empA` (1 distinct
worker); fed the same task set, the consolidation optimizer puts the first
task on the cheaper `empB`, whose capacity then cannot take the second, so
the second goes to `empA`: 2 distinct workers, strictly more than the
matcher used. -/
theorem optimizer_can_use_more_workers_than_matcher :
    matcherDistinctWorkers (allocateCore [taskT1, taskT2] [empA, empB]) = 1 ∧
    optDistinctWorkers
      (optimize_task_allocations
        [{ employee_id := "A", employee_email := "alice@example.com",
           employee_name := "Alice", tasks := [taskT1, taskT2] }]
        [empA, empB]) = 2 :=
  ⟨by decide, by decide⟩

theorem addTask_ids (assigns : List OptAssignment) (e : Employee) (t : Task) :
    (addTaskToAssign assigns e t).map OptAssignment.employee_id =
      assigns.map OptAssignment.employee_id ∨
    (addTaskToAssign assigns e t).map OptAssignment.employee_id =
      assigns.map OptAssignment.employee_id ++ [e.id] := by
  rcases h : findAssign assigns e.id with _ | a
  · right
    simp [addTaskToAssign, h]
  · left
    simp only [addTaskToAssign, h, List.map_map]
    refine List.map_congr_left ?_
    intro a2 _
    by_cases h2 : a2.employee_id = e.id
    · simp [h2]
    · simp [h2]

theorem addTask_length (assigns : List OptAssignment) (e : Employee) (t : Task) :
    (addTaskToAssign assigns e t).length ≤ assigns.length + 1 := by
  rcases h : findAssign assigns e.id with _ | a
  · simp [addTaskToAssign, h]
  · simp [addTaskToAssign, h]

theorem optStep_ids_subset (employees : List Employee)
    (assigns : List OptAssignment) (t : Task) :
    ∀ x ∈ (optStep employees assigns t).map OptAssignment.employee_id,
      x ∈ assigns.map OptAssignment.employee_id ∨
        x ∈ employees.map Employee.id := by
  intro x hx
  rcases hb : bestOptEmployee employees assigns t with _ | e
  · left
    simp only [optStep, hb] at hx
    exact hx
  · have hmem := ((bestOptEmployee_spec employees assigns t).1 e hb).1
    simp only [optStep, hb] at hx
    rcases addTask_ids assigns e t with hi | hi
    · rw [hi] at hx
      exact Or.inl hx
    · rw [hi] at hx
      rcases List.mem_append.mp hx with h1 | h1
      · exact Or.inl h1
      · right
        rw [List.mem_singleton.mp h1]
        exact List.mem_map_of_mem Employee.id hmem

theorem optStep_length_le (employees : List Employee)
    (assigns : List OptAssignment) (t : Task) :
    (optStep employees assigns t).length ≤ assigns.length + 1 := by
  rcases hb : bestOptEmployee employees assigns t with _ | e
  · simp [optStep, hb]
  · simp only [optStep, hb]
    exact addTask_length assigns e t

theorem optFold_ids_subset (employees : List Employee) (l : List Task)
    (assigns : List OptAssignment)
    (h : ∀ x ∈ assigns.map OptAssignment.employee_id,
      x ∈ employees.map Employee.id) :
    ∀ x ∈ (l.foldl (optStep employees) assigns).map OptAssignment.employee_id,
      x ∈ employees.map Employee.id := by
  induction l generalizing assigns with
  | nil => exact h
  | cons t l ih =>
    refine ih (optStep employees assigns t) ?_
    intro x hx
    rcases optStep_ids_subset employees assigns t x hx with h1 | h1
    · exact h x h1
    · exact h1

theorem optFold_length_le (employees : List Employee) (l : List Task)
    (assigns : List OptAssignment) :
    (l.foldl (optStep employees) assigns).length ≤ assigns.length + l.length := by
  induction l generalizing assigns with
  | nil => simp
  | cons t l ih =>
    have h1 := ih (optStep employees assigns t)
    have h2 := optStep_length_le employees assigns t
    simp only [List.foldl_cons, List.length_cons]
    omega

/-- **C1** amended: the optimizer's distinct-worker count is bounded by the
number of distinct worker ids in the roster and by the number of tasks —
but, as the counterexample shows, not in general by the matcher's
distinct-worker count: the consolidation bonus favors but does not
guarantee reuse. -/
theorem optimizer_distinct_workers_bounds (tasks : List Task)
    (employees : List Employee) :
    optDistinctWorkers (optimizeFlat tasks employees) ≤
      ((employees.map Employee.id).dedup).length ∧
    optDistinctWorkers (optimizeFlat tasks employees) ≤ tasks.length := by
  constructor
  · unfold optDistinctWorkers
    rw [← List.card_toFinset, ← List.card_toFinset]
    apply Finset.card_le_card
    intro x hx
    rw [List.mem_toFinset] at hx ⊢
    exact optFold_ids_subset employees (opt_sorted_tasks tasks) []
      (by simp) x hx
  · unfold optDistinctWorkers
    calc ((optimizeFlat tasks employees).map OptAssignment.employee_id).dedup.length
        ≤ ((optimizeFlat tasks employees).map OptAssignment.employee_id).length :=
          (List.dedup_sublist _).length_le
      _ = (optimizeFlat tasks employees).length := List.length_map _ _
      _ ≤ 0 + (opt_sorted_tasks tasks).length :=
          optFold_length_le employees (opt_sorted_tasks tasks) []
      _ = tasks.length := by
          rw [Nat.zero_add]
          exact length_sortStable _ _ tasks

/-! ### Noninterference of the optimizer in skills and category -/

theorem agreesOn_parts {t1 t2 : Task} (h : agreesOn t1 t2) :
    t1.id = t2.id ∧ t1.priority = t2.priority ∧
    t1.estimated_duration_hours = t2.estimated_duration_hours := by
  simpa [agreesOn, taskView, Prod.ext_iff] using h

theorem agreesOn_key {t1 t2 : Task} (h : agreesOn t1 t2) :
    optSortKey t1 = optSortKey t2 := by
  rcases agreesOn_parts h with ⟨_, h2, h3⟩
  simp [optSortKey, h2, h3]

theorem forall₂_hours_eq {l1 l2 : List Task}
    (h : List.Forall₂ agreesOn l1 l2) :
    l1.map Task.estimated_duration_hours =
      l2.map Task.estimated_duration_hours := by
  induction h with
  | nil => rfl
  | cons h1 _ ih => simp [List.map_cons, (agreesOn_parts h1).2.2, ih]

theorem forall₂_task_ids_eq {l1 l2 : List Task}
    (h : List.Forall₂ agreesOn l1 l2) : l1.map Task.id = l2.map Task.id := by
  induction h with
  | nil => rfl
  | cons h1 _ ih => simp [List.map_cons, (agreesOn_parts h1).1, ih]

theorem findAssign_rel {s1 s2 : List OptAssignment}
    (h : List.Forall₂ assignRel s1 s2) (idv : String) :
    (findAssign s1 idv = none ∧ findAssign s2 idv = none) ∨
    ∃ a1 a2, findAssign s1 idv = some a1 ∧ findAssign s2 idv = some a2 ∧
      assignRel a1 a2 := by
  induction h with
  | nil => exact Or.inl ⟨rfl, rfl⟩
  | @cons a1 a2 l1 l2 ha hl ih =>
    by_cases hc : a1.employee_id = idv
    · right
      refine ⟨a1, a2, ?_, ?_, ha⟩
      · exact List.find?_cons_of_pos _ (by simpa using hc)
      · exact List.find?_cons_of_pos _ (by simp [← ha.1, hc])
    · have h1 : findAssign (a1 :: l1) idv = findAssign l1 idv :=
        List.find?_cons_of_neg _ (by simpa using hc)
      have h2 : findAssign (a2 :: l2) idv = findAssign l2 idv :=
        List.find?_cons_of_neg _ (by simp [← ha.1, hc])
      rw [h1, h2]
      exact ih

theorem current_hours_rel {s1 s2 : List OptAssignment}
    (h : List.Forall₂ assignRel s1 s2) (idv : String) :
    current_hours_of s1 idv = current_hours_of s2 idv := by
  rcases findAssign_rel h idv with ⟨h1, h2⟩ | ⟨a1, a2, h1, h2, hrel⟩
  · simp [current_hours_of, h1, h2]
  · simp [current_hours_of, h1, h2, forall₂_hours_eq hrel.2.2.2.1]

theorem adjustedCost_rel {s1 s2 : List OptAssignment}
    (h : List.Forall₂ assignRel s1 s2) (e : Employee) :
    adjustedCost s1 e = adjustedCost s2 e := by
  rcases findAssign_rel h e.id with ⟨h1, h2⟩ | ⟨a1, a2, h1, h2, _⟩ <;>
    simp [adjustedCost, h1, h2]

theorem optEligible_rel {s1 s2 : List OptAssignment}
    (h : List.Forall₂ assignRel s1 s2) (e : Employee) {t1 t2 : Task}
    (ht : agreesOn t1 t2) : optEligible s1 e t1 ↔ optEligible s2 e t2 := by
  unfold optEligible
  rw [current_hours_rel h e.id, (agreesOn_parts ht).2.2]

theorem bestOptStep_rel {s1 s2 : List OptAssignment}
    (h : List.Forall₂ assignRel s1 s2) {t1 t2 : Task} (ht : agreesOn t1 t2)
    (acc : Option (Employee × ℚ)) (e : Employee) :
    bestOptStep s1 t1 acc e = bestOptStep s2 t2 acc e := by
  simp only [bestOptStep]
  by_cases he : optEligible s1 e t1
  · rw [if_pos he, if_pos ((optEligible_rel h e ht).mp he),
      adjustedCost_rel h e]
  · rw [if_neg he, if_neg (fun hc => he ((optEligible_rel h e ht).mpr hc))]

theorem bestOptEmployee_rel {s1 s2 : List OptAssignment}
    (h : List.Forall₂ assignRel s1 s2) {t1 t2 : Task} (ht : agreesOn t1 t2)
    (employees : List Employee) :
    bestOptEmployee employees s1 t1 = bestOptEmployee employees s2 t2 := by
  have hfold : ∀ (es : List Employee) (acc : Option (Employee × ℚ)),
      es.foldl (bestOptStep s1 t1) acc = es.foldl (bestOptStep s2 t2) acc := by
    intro es
    induction es with
    | nil => intro _; rfl
    | cons e es ih =>
      intro acc
      simp only [List.foldl_cons]
      rw [bestOptStep_rel h ht acc e]
      exact ih _
  unfold bestOptEmployee
  rw [hfold employees none]

theorem addTask_rel {s1 s2 : List OptAssignment}
    (h : List.Forall₂ assignRel s1 s2) (e : Employee) {t1 t2 : Task}
    (ht : agreesOn t1 t2) :
    List.Forall₂ assignRel (addTaskToAssign s1 e t1)
      (addTaskToAssign s2 e t2) := by
  have hnew : assignRel
      { employee_id := e.id, employee_email := e.email, employee_name := e.name,
        tasks := [t1], total_estimated_hours := t1.estimated_duration_hours }
      { employee_id := e.id, employee_email := e.email, employee_name := e.name,
        tasks := [t2], total_estimated_hours := t2.estimated_duration_hours } :=
    ⟨rfl, rfl, rfl, List.Forall₂.cons ht List.Forall₂.nil, (agreesOn_parts ht).2.2⟩
  rcases findAssign_rel h e.id with ⟨h1, h2⟩ | ⟨a1, a2, h1, h2, _⟩
  · simp only [addTaskToAssign, h1, h2]
    exact List.rel_append h (List.Forall₂.cons hnew List.Forall₂.nil)
  · simp only [addTaskToAssign, h1, h2]
    clear h1 h2
    induction h with
    | nil => exact List.Forall₂.nil
    | @cons b1 b2 l1 l2 hb hl ih =>
      simp only [List.map_cons]
      refine List.Forall₂.cons ?_ ih
      by_cases hc : b1.employee_id = e.id
      · rw [if_pos hc, if_pos (by rw [← hb.1]; exact hc)]
        exact ⟨hb.1, hb.2.1, hb.2.2.1,
          List.rel_append hb.2.2.2.1 (List.Forall₂.cons ht List.Forall₂.nil),
          by rw [hb.2.2.2.2, (agreesOn_parts ht).2.2]⟩
      · rw [if_neg hc, if_neg (by rw [← hb.1]; exact hc)]
        exact hb

theorem optStep_rel {s1 s2 : List OptAssignment}
    (h : List.Forall₂ assignRel s1 s2) {t1 t2 : Task} (ht : agreesOn t1 t2)
    (employees : List Employee) :
    List.Forall₂ assignRel (optStep employees s1 t1)
      (optStep employees s2 t2) := by
  have hb := bestOptEmployee_rel h ht employees
  rcases hbb : bestOptEmployee employees s2 t2 with _ | e
  · rw [hbb] at hb
    simp only [optStep, hb, hbb]
    exact h
  · rw [hbb] at hb
    simp only [optStep, hb, hbb]
    exact addTask_rel h e ht

theorem optFold_rel (employees : List Employee) {l1 l2 : List Task}
    (hl : List.Forall₂ agreesOn l1 l2) {s1 s2 : List OptAssignment}
    (hs : List.Forall₂ assignRel s1 s2) :
    List.Forall₂ assignRel (l1.foldl (optStep employees) s1)
      (l2.foldl (optStep employees) s2) := by
  induction hl generalizing s1 s2 with
  | nil => exact hs
  | cons ht hl ih => exact ih (optStep_rel hs ht employees)

theorem optView_rel {o1 o2 : List OptAssignment}
    (h : List.Forall₂ assignRel o1 o2) : optView o1 = optView o2 := by
  induction h with
  | nil => rfl
  | @cons a1 a2 l1 l2 ha _ ih =>
    simp only [optView, List.map_cons] at ih ⊢
    rw [ih, ha.1, forall₂_task_ids_eq ha.2.2.2.1, ha.2.2.2.2]

/-- **C10**: for any two task lists agreeing pointwise on id, priority and
estimated duration hours — while their required skills and categories differ
arbitrarily — the consolidation optimizer produces the same worker-to-task
assignment (same workers, same task ids per worker, same totals): its
eligibility test and cost ranking never read a task's skills or category. -/
theorem optimizer_ignores_skills_and_category (ts1 ts2 : List Task)
    (employees : List Employee) (h : List.Forall₂ agreesOn ts1 ts2) :
    optView (optimizeFlat ts1 employees) =
      optView (optimizeFlat ts2 employees) := by
  unfold optimizeFlat opt_sorted_tasks
  exact optView_rel (optFold_rel employees
    (sortStable_congr (fun a b hab => agreesOn_key hab) h) List.Forall₂.nil)

/-- Witness for `optimizer_ignores_skills_and_category`: varying skills and
category of both tasks leaves the optimizer's assignment unchanged. -/
theorem optimizer_ignores_skills_and_category_witness :
    List.Forall₂ agreesOn [taskT1, taskT2] [taskT1v, taskT2v] ∧
    optView (optimizeFlat [taskT1, taskT2] [empA, empB]) =
      optView (optimizeFlat [taskT1v, taskT2v] [empA, empB]) := by
  have hf : List.Forall₂ agreesOn [taskT1, taskT2] [taskT1v, taskT2v] :=
    List.Forall₂.cons (by decide) (List.Forall₂.cons (by decide) List.Forall₂.nil)
  exact ⟨hf, optimizer_ignores_skills_and_category _ _ [empA, empB] hf⟩

end Zenith
